import Mathlib

/-!
Verification of the command-automation agent implemented in `src/ai_agent.py`.

Python strings are modelled as lists of characters (`Str`).  Every definition
below is a shallow embedding of the corresponding Python code: the sanitizer
`_sanitize_commands`, the response parsing inside `_get_ai_commands`, the
bounded conversation window, the execution engine `_execute_commands`, and the
orchestration loop `run`.  External effects (the generation service, human
prompts, subprocess outcomes) are supplied as explicit oracle inputs.
-/

set_option maxRecDepth 8192

namespace AIAgent

/-- Character-list representation of a Lean string literal. -/
def str (s : String) : List Char := s.data

/-- Python strings are modelled as lists of characters. -/
abbrev Str : Type := List Char

/-- The whitespace characters removed by Python `str.strip()` (ASCII range). -/
def isPySpace (c : Char) : Bool :=
  c == ' ' || c == '\t' || c == '\n' || c == '\r' || c == '\x0b' || c == '\x0c'

/-- Python `str.strip()`: remove whitespace from both ends. -/
def pyStrip (s : Str) : Str :=
  ((s.dropWhile isPySpace).reverse.dropWhile isPySpace).reverse

/-- Whether the Python regex match `#.*$` started at a given `#` can reach a
position accepted by the `$` anchor: since `.` does not cross newlines and `$`
(without MULTILINE) matches only at the end of the string or just before a
single trailing newline, the text after the `#` may contain a newline only as
its final character. -/
def hashReachesEnd (rest : Str) : Bool := !(rest.dropLast.contains '\n')

/-- Model of Python `re.sub(r'#.*$', '', cmd)`: scan left to right for the
first `#` from which the match can reach the `$` anchor; delete from there to
the end, keeping a sole trailing newline (which the greedy `.*` cannot consume
but the `$` anchor tolerates). -/
def subHashComment : Str → Str
  | [] => []
  | c :: rest =>
    if c == '#' && hashReachesEnd rest then
      (if rest.contains '\n' then ['\n'] else [])
    else c :: subHashComment rest

/-- The per-candidate cleaning step of `_sanitize_commands`:
`re.sub(r'#.*$', '', cmd).strip()`. -/
def cleanCmd (cmd : Str) : Str := pyStrip (subHashComment cmd)

/-- The fixed denylist set in the agent constructor (`self.blocked_commands`). -/
def blocked_commands : List Str :=
  [str "rm", str "shutdown", str "reboot", str ":()\x7b", str "mkfs",
   str "dd if=", str ">:"]

/-- Whether `pat` occurs at the start of `s` (Python `str.startswith`). -/
def strStartsWith : Str → Str → Bool
  | _, [] => true
  | [], _ :: _ => false
  | c :: s, p :: ps => c == p && strStartsWith s ps

/-- Whether `pat` occurs as a contiguous substring of `s` (Python `in`). -/
def containsSub : Str → Str → Bool
  | [], pat => pat.isEmpty
  | c :: rest, pat => strStartsWith (c :: rest) pat || containsSub rest pat

/-- The denylist test of `_sanitize_commands`:
`any(bc in clean_cmd for bc in self.blocked_commands)`. -/
def isBlockedB (c : Str) : Bool := blocked_commands.any (fun bc => containsSub c bc)

/-- The loop body of `_sanitize_commands`, returning both the kept commands
and the commands reported in `BLOCKED:` notices, each in input order. -/
def sanitizeRun : List Str → List Str × List Str
  | [] => ([], [])
  | cmd :: rest =>
    let clean_cmd := cleanCmd cmd
    let r := sanitizeRun rest
    if clean_cmd.isEmpty then r
    else if isBlockedB clean_cmd then (r.1, clean_cmd :: r.2)
    else (clean_cmd :: r.1, r.2)

/-- `_sanitize_commands`: the list of commands that survive cleaning and the
denylist check. -/
def _sanitize_commands (cmds : List Str) : List Str := (sanitizeRun cmds).1

/-- The commands named in the visible `BLOCKED:` notices printed by
`_sanitize_commands`, in emission order. -/
def blockedNotices (cmds : List Str) : List Str := (sanitizeRun cmds).2

/-- Declarative restatement of the sanitizer, following the specification
words: clean every candidate, keep the nonempty ones that contain no
denylisted substring, in original relative order. -/
def sanitizeSpec (cmds : List Str) : List Str :=
  (cmds.map cleanCmd).filter (fun c => !c.isEmpty && !isBlockedB c)

/-- Python `split('\n')`: split into the segments between newline characters
(one more segment than there are newlines). -/
def splitNL : Str → List Str
  | [] => [[]]
  | c :: rest =>
    if c == '\n' then [] :: splitNL rest
    else
      match splitNL rest with
      | [] => [[c]]
      | l :: ls => (c :: l) :: ls

/-- ASCII letter-or-digit test, the character class `[a-zA-Z0-9]`. -/
def isAsciiAlnum (c : Char) : Bool :=
  ('a' ≤ c && c ≤ 'z') || ('A' ≤ c && c ≤ 'Z') || ('0' ≤ c && c ≤ '9')

/-- The per-line handling in `_get_ai_commands`: strip the leading run of
characters outside `[a-zA-Z0-9]`, drop the line if the result is empty or
starts with `#`, `//` or `/*`, otherwise emit the stripped line. -/
def parseLine (line : Str) : Option Str :=
  let l := line.dropWhile (fun c => !(isAsciiAlnum c))
  if l.isEmpty then none
  else if strStartsWith l (str "#") || strStartsWith l (str "//")
       || strStartsWith l (str "/*") then none
  else some (pyStrip l)

/-- The candidate list built from the raw generation text in
`_get_ai_commands` (before sanitization). -/
def parseResponse (resp : Str) : List Str := (splitNL resp).filterMap parseLine

/-- Restatement of the per-line handling without the comment-marker branch;
used to show that branch is unreachable (the survivors of the leading strip
never start with `#` or `/`). -/
def parseLineStripOnly (line : Str) : Option Str :=
  let l := line.dropWhile (fun c => !(isAsciiAlnum c))
  if l.isEmpty then none else some (pyStrip l)

/-- The system prompt installed as the first conversation entry. -/
def system_prompt : Str :=
  str "... \n            Generate ONLY valid shell commands without ANY:\n            - Explanatory text\n            - Code blocks\n            - Numbered lists\n            - Header text\n            - Markdown formatting\n            - Should not be in multiple lines(only single line)\n        Format response as ONE COMMAND PER LINE with NO ADDITIONAL TEXT"

/-- The context window sent to the generation service:
`self.conversation[-5:]`, the last five entries (all of them when fewer). -/
def ctxWindow (conv : List Str) : List Str := conv.drop (conv.length - 5)

/-- Everything `_get_ai_commands` produces on one call: the updated
conversation log, the window submitted to the service, the returned command
list, and any surfaced error message. -/
structure GenResult where
  conversation : List Str
  submitted : List Str
  commands : List Str
  messages : List Str
deriving DecidableEq

/-- `_get_ai_commands`: append the `User task:` turn, submit the last five
conversation entries, and either parse and sanitize the response (appending
the `Generated commands:` turn) or, when the underlying call fails, surface
an `AI Error:` message and return no commands.  The service outcome is the
oracle argument `svc`. -/
def _get_ai_commands (conv : List Str) (task : Str) (svc : Except Str Str) :
    GenResult :=
  let conv1 := conv ++ [str "User task: " ++ task]
  let window := ctxWindow conv1
  match svc with
  | Except.error e =>
    { conversation := conv1, submitted := window, commands := [],
      messages := [str "AI Error: " ++ e] }
  | Except.ok resp =>
    { conversation := conv1 ++ [str "Generated commands:\n" ++ resp],
      submitted := window,
      commands := _sanitize_commands (parseResponse resp),
      messages := [] }

/-- The mutable state of one orchestration session: the conversation log and
the `task` / `attempt` variables of `run`. -/
structure AgentState where
  conversation : List Str
  task : Str
  attempt : Nat
deriving DecidableEq

/-- The oracle inputs consumed by one iteration of the `run` loop: the
generation-service outcome and the (already lowercased) human answers to the
approval, success, and feedback prompts. -/
structure StepInput where
  svc : Except Str Str
  approval : Str
  success : Str
  feedback : Str

/-- How a run of the loop can end.  `pending` means the supplied input script
was exhausted while the loop would still continue (the program would be
blocking on further input). -/
inductive RunResult where
  | completed
  | cancelled
  | failed
  | pending
deriving DecidableEq

/-- One iteration of the body of the `while attempt <= 3` loop in `run`:
either a successor state (the loop continues) or a terminal result.
Command execution changes no session state, so it does not appear here. -/
def runStep (initial : Str) (st : AgentState) (inp : StepInput) :
    AgentState ⊕ RunResult :=
  let g := _get_ai_commands st.conversation st.task inp.svc
  if g.commands = [] then
    Sum.inl { conversation := g.conversation, task := st.task,
              attempt := st.attempt + 1 }
  else if inp.approval = str "y" then
    if inp.success = str "y" then Sum.inr RunResult.completed
    else
      Sum.inl { conversation := g.conversation,
                task := str "Previous failure: " ++ inp.feedback
                        ++ str ". Original task: " ++ initial,
                attempt := st.attempt + 1 }
  else if inp.approval = str "r" then
    Sum.inl { conversation := g.conversation, task := st.task,
              attempt := st.attempt }
  else Sum.inr RunResult.cancelled

/-- The `while attempt <= 3` loop of `run`, driven by a finite input script.
Returns the final result, the final state, and the trace of `attempt` values
at which the loop body was entered. -/
def runLoop (initial : Str) : AgentState → List StepInput →
    RunResult × AgentState × List Nat
  | st, inputs =>
    if 3 < st.attempt then (RunResult.failed, st, [])
    else
      match inputs with
      | [] => (RunResult.pending, st, [])
      | i :: rest =>
        match runStep initial st i with
        | Sum.inl st2 =>
          let r := runLoop initial st2 rest
          (r.1, r.2.1, st.attempt :: r.2.2)
        | Sum.inr res => (res, st, [st.attempt])

/-- `run(initial_task)`: the conversation starts as the sole system prompt,
`task = initial_task`, `attempt = 1`. -/
def run (initial_task : Str) (inputs : List StepInput) :
    RunResult × AgentState × List Nat :=
  runLoop initial_task
    { conversation := [system_prompt], task := initial_task, attempt := 1 }
    inputs

/-- Per-command outcome of the subprocess invocation in `_execute_commands`,
supplied by an oracle: normal completion with return code and captured
output, a timeout, or an unexpected exception while invoking. -/
inductive ExecOutcome where
  | completed (returncode : Int) (stdout : Str) (stderr : Str)
  | timedOut
  | crashed (err : Str)

/-- The visible reports printed by `_execute_commands`. -/
inductive ExecReport where
  | noCommands
  | executing (cmd : Str)
  | failedCode (returncode : Int) (cmd : Str)
  | output (text : Str)
  | errorOutput (text : Str)
  | timeout (cmd : Str)
  | criticalError (err : Str)
deriving DecidableEq

/-- The reports a single command produces after its `EXECUTING:` line. -/
def outcomeReports (cmd : Str) : ExecOutcome → List ExecReport
  | ExecOutcome.completed code out err =>
    (if code ≠ 0 then [ExecReport.failedCode code cmd] else [])
      ++ (if out ≠ [] then [ExecReport.output out] else [])
      ++ (if err ≠ [] then [ExecReport.errorOutput err] else [])
  | ExecOutcome.timedOut => [ExecReport.timeout cmd]
  | ExecOutcome.crashed e => [ExecReport.criticalError e]

/-- The `for cmd in commands` loop of `_execute_commands`; the oracle `env`
gives the outcome of the i-th invocation. -/
def execLoop (env : Nat → ExecOutcome) : Nat → List Str → List ExecReport
  | _, [] => []
  | i, cmd :: rest =>
    (ExecReport.executing cmd :: outcomeReports cmd (env i))
      ++ execLoop env (i + 1) rest

/-- `_execute_commands`: report `No valid commands to execute` on an empty
plan, otherwise run every command in order. -/
def _execute_commands (env : Nat → ExecOutcome) (cmds : List Str) :
    List ExecReport :=
  if cmds.isEmpty then [ExecReport.noCommands] else execLoop env 0 cmds

/-- Projection selecting the `EXECUTING:` announcements from a report list. -/
def executingOf : ExecReport → Option Str
  | ExecReport.executing c => some c
  | _ => none

/-- Turn predicate: a conversation entry recording a submitted task. -/
def isTaskTurn (s : Str) : Bool := strStartsWith s (str "User task: ")

/-- Turn predicate: a conversation entry recording raw generation output. -/
def isGenTurn (s : Str) : Bool := strStartsWith s (str "Generated commands:\n")

/-- The entries alternate task / generation turns, starting with a task turn
when `b` is `true`. -/
def alternatingFrom : Bool → List Str → Bool
  | _, [] => true
  | b, s :: rest =>
    (if b then isTaskTurn s else isGenTurn s) && alternatingFrom (!b) rest

/-- Flip a starting parity across `n` consumed entries. -/
def flipN (b : Bool) (n : Nat) : Bool := if n % 2 = 0 then b else !b

/-- The conversation-log invariant maintained by successful generation calls:
the log starts with the system prompt, the remaining entries alternate task
and generation turns, and the log length is odd (complete pairs). -/
def GoodConv (conv : List Str) : Prop :=
  conv.head? = some system_prompt
    ∧ alternatingFrom true (conv.drop 1) = true
    ∧ conv.length % 2 = 1

/-- The sanitizer loop is the clean-then-filter pipeline: the kept commands
are the nonempty cleaned candidates without a denylisted substring, the
blocked notices are the nonempty cleaned candidates with one, both in input
order. -/
theorem sanitizeRun_eq (cmds : List Str) :
    sanitizeRun cmds
      = ((cmds.map cleanCmd).filter (fun c => !c.isEmpty && !isBlockedB c),
         (cmds.map cleanCmd).filter (fun c => !c.isEmpty && isBlockedB c)) := by
  induction cmds with
  | nil => rfl
  | cons cmd rest ih =>
    simp only [sanitizeRun, ih, List.map_cons, List.filter_cons]
    cases h1 : (cleanCmd cmd).isEmpty with
    | true => simp [h1]
    | false => cases h2 : isBlockedB (cleanCmd cmd) <;> simp [h1, h2]

/-- Restatement of `sanitizeRun_eq` for the kept-command projection. -/
theorem sanitize_commands_eq (cmds : List Str) :
    _sanitize_commands cmds
      = (cmds.map cleanCmd).filter (fun c => !c.isEmpty && !isBlockedB c) := by
  show (sanitizeRun cmds).1 = _
  rw [sanitizeRun_eq]

/-- Restatement of `sanitizeRun_eq` for the blocked-notice projection. -/
theorem blockedNotices_eq (cmds : List Str) :
    blockedNotices cmds
      = (cmds.map cleanCmd).filter (fun c => !c.isEmpty && isBlockedB c) := by
  show (sanitizeRun cmds).2 = _
  rw [sanitizeRun_eq]

/-- C1: for every candidate list, the sanitizer equals the specification
pipeline (clean each candidate, keep the nonempty unblocked results in input
order), no candidate containing a denylisted substring is in the output, every
blocked cleaned candidate is named in a blocked notice, and on the example
list the output is exactly the two safe commands with `rm -rf /` blocked. -/
theorem C1_sanitize_correct (cmds : List Str) :
    _sanitize_commands cmds = sanitizeSpec cmds
    ∧ (∀ cmd ∈ cmds, (∃ bc ∈ blocked_commands, containsSub cmd bc = true) →
        cmd ∉ _sanitize_commands cmds)
    ∧ (∀ cmd ∈ cmds, isBlockedB (cleanCmd cmd) = true →
        (cleanCmd cmd).isEmpty = false → cleanCmd cmd ∈ blockedNotices cmds)
    ∧ _sanitize_commands
        [str "ls -la  # list files", str "rm -rf /  ", str "echo hello"]
        = [str "ls -la", str "echo hello"]
    ∧ blockedNotices
        [str "ls -la  # list files", str "rm -rf /  ", str "echo hello"]
        = [str "rm -rf /"] := by
  refine ⟨sanitize_commands_eq cmds, ?_, ?_, by decide, by decide⟩
  · intro cmd _ hex hout
    rw [sanitize_commands_eq] at hout
    have hpred := (List.mem_filter.mp hout).2
    rw [Bool.and_eq_true] at hpred
    have hnb : isBlockedB cmd = false := by
      have := hpred.2
      cases hb : isBlockedB cmd
      · rfl
      · rw [hb] at this; exact absurd this (by decide)
    obtain ⟨bc, hbc, hsub⟩ := hex
    have := List.any_eq_false.mp hnb bc hbc
    exact this hsub
  · intro cmd hmem hblocked hne
    rw [blockedNotices_eq]
    refine List.mem_filter.mpr ⟨List.mem_map_of_mem cleanCmd hmem, ?_⟩
    rw [Bool.and_eq_true]
    exact ⟨by rw [hne]; rfl, hblocked⟩

/-- Witness for C1: the denylisted candidate `rm -rf /  ` is excluded from the
sanitized output and its cleaned form is named in the blocked notices. -/
theorem C1_sanitize_correct_witness :
    str "rm -rf /  " ∉ _sanitize_commands [str "rm -rf /  "]
    ∧ cleanCmd (str "rm -rf /  ") ∈ blockedNotices [str "rm -rf /  "] :=
  ⟨(C1_sanitize_correct [str "rm -rf /  "]).2.1 (str "rm -rf /  ")
      (List.mem_singleton.mpr rfl) ⟨str "rm", by decide, by decide⟩,
   (C1_sanitize_correct [str "rm -rf /  "]).2.2.1 (str "rm -rf /  ")
      (List.mem_singleton.mpr rfl) (by decide) (by decide)⟩

/-- The reports of a single command's outcome contain no `EXECUTING:` line. -/
theorem outcomeReports_no_executing (cmd : Str) (o : ExecOutcome) :
    (outcomeReports cmd o).filterMap executingOf = [] := by
  cases o with
  | completed code out err =>
    simp only [outcomeReports, List.filterMap_append]
    split_ifs <;> simp [executingOf]
  | timedOut => rfl
  | crashed e => rfl

/-- The execution loop announces exactly the input commands, in order,
whatever each invocation's outcome is. -/
theorem execLoop_executing (env : Nat → ExecOutcome) (cmds : List Str) :
    ∀ i : Nat, (execLoop env i cmds).filterMap executingOf = cmds := by
  induction cmds with
  | nil => intro i; rfl
  | cons cmd rest ih =>
    intro i
    simp only [execLoop, List.filterMap_append, List.filterMap_cons, executingOf,
      outcomeReports_no_executing, ih]
    rfl

/-- C7: the execution engine reports `nothing to execute` on an empty command
list, and otherwise attempts every command strictly in input order — whatever
outcome (non-zero return code, timeout, or invocation crash) the environment
assigns to each command, every command in the list gets its `EXECUTING:`
announcement, and each command's reports are emitted before the loop moves to
the rest of the list. -/
theorem C7_execute_best_effort :
    (∀ env, _execute_commands env [] = [ExecReport.noCommands])
    ∧ (∀ env cmds, (_execute_commands env cmds).filterMap executingOf = cmds)
    ∧ (∀ env i cmd rest,
        execLoop env i (cmd :: rest)
          = (ExecReport.executing cmd :: outcomeReports cmd (env i))
              ++ execLoop env (i + 1) rest) := by
  refine ⟨fun env => rfl, fun env cmds => ?_, fun env i cmd rest => rfl⟩
  cases cmds with
  | nil => rfl
  | cons c rest =>
    show (execLoop env 0 (c :: rest)).filterMap executingOf = c :: rest
    exact execLoop_executing env (c :: rest) 0

/-- The window submitted to the service is the last-five slice of the log
after the task turn is appended, whatever the service then does. -/
theorem submitted_eq (conv : List Str) (task : Str) (svc : Except Str Str) :
    (_get_ai_commands conv task svc).submitted
      = ctxWindow (conv ++ [str "User task: " ++ task]) := by
  cases svc <;> rfl

/-- C5: on every generation call the window submitted to the service has at
most 5 entries; its length is exactly the minimum of 5 and the log length
(after the task turn is appended), it is a suffix of the log — the most
recent entries — and when the log has at most 5 entries the whole log is
submitted. -/
theorem C5_window_bound (conv : List Str) (task : Str) (svc : Except Str Str) :
    ((_get_ai_commands conv task svc).submitted).length ≤ 5
    ∧ ((_get_ai_commands conv task svc).submitted).length
        = min 5 (conv ++ [str "User task: " ++ task]).length
    ∧ (_get_ai_commands conv task svc).submitted
        <:+ (conv ++ [str "User task: " ++ task])
    ∧ ((conv ++ [str "User task: " ++ task]).length ≤ 5 →
        (_get_ai_commands conv task svc).submitted
          = conv ++ [str "User task: " ++ task]) := by
  rw [submitted_eq]
  refine ⟨?_, ?_, List.drop_suffix _ _, ?_⟩
  · rw [ctxWindow, List.length_drop]; omega
  · rw [ctxWindow, List.length_drop]; omega
  · intro h
    rw [ctxWindow, Nat.sub_eq_zero_of_le h, List.drop_zero]

/-- Witness for C5: with an empty prior log the whole (single-entry) log is
submitted. -/
theorem C5_window_bound_witness :
    (_get_ai_commands [] (str "t") (Except.error (str "e"))).submitted
      = [str "User task: t"] :=
  Eq.trans
    ((C5_window_bound [] (str "t") (Except.error (str "e"))).2.2.2 (by decide))
    (by decide)

/-- C10: when the generation call fails, the conversation log is not rolled
back — the appended `User task:` turn is the only change, no generation turn
is added — and that task turn occupies a slot of the window submitted on the
next generation call, whatever that call's task and outcome are. -/
theorem C10_no_rollback (conv : List Str) (task e task2 : Str)
    (svc : Except Str Str) :
    (_get_ai_commands conv task (Except.error e)).conversation
        = conv ++ [str "User task: " ++ task]
    ∧ (str "User task: " ++ task)
        ∈ (_get_ai_commands
            (_get_ai_commands conv task (Except.error e)).conversation
            task2 svc).submitted := by
  refine ⟨rfl, ?_⟩
  rw [submitted_eq]
  show (str "User task: " ++ task) ∈ ctxWindow
    ((conv ++ [str "User task: " ++ task]) ++ [str "User task: " ++ task2])
  rw [ctxWindow]
  have hlen : ((conv ++ [str "User task: " ++ task])
      ++ [str "User task: " ++ task2]).length - 5 ≤ conv.length := by
    simp only [List.length_append, List.length_cons, List.length_nil]
    omega
  rw [List.drop_append_of_le_length
        (le_trans hlen (by simp [List.length_append])),
      List.drop_append_of_le_length hlen]
  exact List.mem_append.mpr (Or.inl (List.mem_append.mpr
    (Or.inr (List.mem_singleton.mpr rfl))))

/-- C6: a failing generation call is not propagated: `_get_ai_commands`
returns the empty command list after surfacing an `AI Error:` message, and
the orchestration loop treats the empty result as a consumed attempt
(incrementing the counter by one, leaving the task unchanged). -/
theorem C6_service_failure (conv : List Str) (task e initial : Str)
    (st : AgentState) (inp : StepInput) (h : inp.svc = Except.error e) :
    (_get_ai_commands conv task (Except.error e)).commands = []
    ∧ (_get_ai_commands conv task (Except.error e)).messages
        = [str "AI Error: " ++ e]
    ∧ runStep initial st inp
        = Sum.inl { conversation :=
                      st.conversation ++ [str "User task: " ++ st.task],
                    task := st.task, attempt := st.attempt + 1 } := by
  refine ⟨rfl, rfl, ?_⟩
  simp [runStep, h, _get_ai_commands]

/-- Witness for C6: a concrete failing call consumes one attempt. -/
theorem C6_service_failure_witness :
    runStep (str "t")
        { conversation := [system_prompt], task := str "t", attempt := 1 }
        { svc := Except.error (str "boom"), approval := [], success := [],
          feedback := [] }
      = Sum.inl { conversation :=
                    [system_prompt] ++ [str "User task: " ++ str "t"],
                  task := str "t", attempt := 2 } :=
  (C6_service_failure [] [] (str "boom") (str "t")
    { conversation := [system_prompt], task := str "t", attempt := 1 }
    { svc := Except.error (str "boom"), approval := [], success := [],
      feedback := [] } rfl).2.2

/-- The loop body only runs under the `attempt <= 3` guard, so every traced
entry value is at most 3, from any starting state. -/
theorem runLoop_trace_le (initial : Str) (inputs : List StepInput) :
    ∀ st : AgentState, ∀ a ∈ (runLoop initial st inputs).2.2, a ≤ 3 := by
  induction inputs with
  | nil =>
    intro st a ha
    rw [runLoop] at ha
    split at ha <;> simp at ha
  | cons i rest ih =>
    intro st a ha
    rw [runLoop] at ha
    split at ha
    · simp at ha
    · rename_i hguard
      rcases hs : runStep initial st i with st2 | res
      · rw [hs] at ha
        simp only [List.mem_cons] at ha
        rcases ha with h1 | h2
        · omega
        · exact ih st2 a h2
      · rw [hs] at ha
        simp only [List.mem_singleton] at ha
        omega

/-- C2: the loop body is never entered with an attempt value above 3; a redo
decision (approval `r` on a nonempty plan) re-enters generation with the same
attempt and the same task; a failed-outcome decision (approval `y`, success
answer not `y`) increments the attempt counter by exactly one while folding
the feedback into the task. -/
theorem C2_attempt_discipline :
    (∀ initial st inputs, ∀ a ∈ (runLoop initial st inputs).2.2, a ≤ 3)
    ∧ (∀ initial st inp,
        (_get_ai_commands st.conversation st.task inp.svc).commands ≠ [] →
        inp.approval = str "r" →
        runStep initial st inp
          = Sum.inl { conversation :=
                        (_get_ai_commands st.conversation st.task
                          inp.svc).conversation,
                      task := st.task, attempt := st.attempt })
    ∧ (∀ initial st inp,
        (_get_ai_commands st.conversation st.task inp.svc).commands ≠ [] →
        inp.approval = str "y" → inp.success ≠ str "y" →
        runStep initial st inp
          = Sum.inl { conversation :=
                        (_get_ai_commands st.conversation st.task
                          inp.svc).conversation,
                      task := str "Previous failure: " ++ inp.feedback
                              ++ str ". Original task: " ++ initial,
                      attempt := st.attempt + 1 }) := by
  refine ⟨fun initial st inputs => runLoop_trace_le initial inputs st,
    ?_, ?_⟩
  · intro initial st inp hcmds happ
    have hny : ¬ inp.approval = str "y" := by rw [happ]; decide
    show (if _ = [] then _ else _) = _
    rw [if_neg hcmds, if_neg hny, if_pos happ]
  · intro initial st inp hcmds happ hsucc
    show (if _ = [] then _ else _) = _
    rw [if_neg hcmds, if_pos happ, if_neg hsucc]

/-- Witness for C2: a bounded-trace entry, a concrete redo step keeping
attempt and task, and a concrete failed-outcome step incrementing the
attempt. -/
theorem C2_attempt_discipline_witness :
    (1 : Nat) ≤ 3
    ∧ runStep (str "t") { conversation := [], task := str "t", attempt := 1 }
        { svc := Except.ok (str "echo hi"), approval := str "r",
          success := [], feedback := [] }
        = Sum.inl { conversation :=
                      [str "User task: t", str "Generated commands:\necho hi"],
                    task := str "t", attempt := 1 }
    ∧ runStep (str "t") { conversation := [], task := str "t", attempt := 1 }
        { svc := Except.ok (str "echo hi"), approval := str "y",
          success := str "n", feedback := str "f" }
        = Sum.inl { conversation :=
                      [str "User task: t", str "Generated commands:\necho hi"],
                    task := str "Previous failure: f. Original task: t",
                    attempt := 2 } :=
  ⟨C2_attempt_discipline.1 (str "t")
      { conversation := [], task := str "t", attempt := 1 }
      [{ svc := Except.error (str "x"), approval := [], success := [],
         feedback := [] }] 1 (by decide),
   Eq.trans (C2_attempt_discipline.2.1 (str "t")
      { conversation := [], task := str "t", attempt := 1 }
      { svc := Except.ok (str "echo hi"), approval := str "r",
        success := [], feedback := [] } (by decide) rfl) (by decide),
   Eq.trans (C2_attempt_discipline.2.2 (str "t")
      { conversation := [], task := str "t", attempt := 1 }
      { svc := Except.ok (str "echo hi"), approval := str "y",
        success := str "n", feedback := str "f" } (by decide) rfl (by decide))
     (by decide)⟩

/-- Every string starts with the empty pattern. -/
theorem strStartsWith_nil (s : Str) : strStartsWith s [] = true := by
  cases s <;> rfl

/-- A string starts with each of its prefixes. -/
theorem strStartsWith_append (p s : Str) : strStartsWith (p ++ s) p = true := by
  induction p with
  | nil => exact strStartsWith_nil s
  | cons c ps ih => simp [strStartsWith, ih]

/-- Flipping the parity once more is flipping across one more entry. -/
theorem flipN_succ (b : Bool) (n : Nat) : flipN (!b) n = flipN b (n + 1) := by
  by_cases h : n % 2 = 0
  · have h1 : ¬ (n + 1) % 2 = 0 := by omega
    simp [flipN, h, h1]
  · have h1 : (n + 1) % 2 = 0 := by omega
    simp [flipN, h, h1]

/-- Alternation splits across an append, with the expected parity flip. -/
theorem alternatingFrom_append (xs : List Str) :
    ∀ (b : Bool) (ys : List Str),
      alternatingFrom b (xs ++ ys)
        = (alternatingFrom b xs && alternatingFrom (flipN b xs.length) ys) := by
  induction xs with
  | nil => intro b ys; simp [alternatingFrom, flipN]
  | cons x xs ih =>
    intro b ys
    simp only [List.cons_append, alternatingFrom, List.append_eq, ih,
      List.length_cons, flipN_succ, Bool.and_assoc]

/-- A successful generation call preserves the conversation invariant: the
system prompt stays first and the two appended turns extend the task /
generation alternation. -/
theorem goodConv_ok (conv : List Str) (task resp : Str) (h : GoodConv conv) :
    GoodConv (_get_ai_commands conv task (Except.ok resp)).conversation := by
  obtain ⟨h1, h2, h3⟩ := h
  cases conv with
  | nil => simp at h1
  | cons c cs =>
    have hc : c = system_prompt := by simpa using h1
    have hcs2 : cs.length % 2 = 0 := by
      simp only [List.length_cons] at h3; omega
    refine ⟨by simp [_get_ai_commands, hc], ?_, ?_⟩
    · show alternatingFrom true
        (((c :: cs) ++ [str "User task: " ++ task]
          ++ [str "Generated commands:\n" ++ resp]).drop 1) = true
      simp only [List.cons_append, List.drop_succ_cons, List.drop_zero,
        List.append_assoc]
      rw [alternatingFrom_append]
      have hx : alternatingFrom true cs = true := by simpa using h2
      have hflip : flipN true cs.length = true := by simp [flipN, hcs2]
      rw [hx, hflip]
      simp [alternatingFrom, isTaskTurn, isGenTurn, strStartsWith_append]
    · show (((c :: cs) ++ [str "User task: " ++ task]
          ++ [str "Generated commands:\n" ++ resp]).length) % 2 = 1
      simp only [List.length_append, List.length_cons, List.length_nil]
      omega

/-- C4 counterexample: after two generation-service failures the reachable
session state has two consecutive `User task:` entries after the system
prompt, so the entries after the first do not alternate task statements and
raw generation outputs. -/
theorem C4_conversation_counterexample :
    (runLoop (str "t")
        { conversation := [system_prompt], task := str "t", attempt := 1 }
        [{ svc := Except.error (str "x"), approval := [], success := [],
           feedback := [] },
         { svc := Except.error (str "x"), approval := [], success := [],
           feedback := [] }]).2.1.conversation
      = [system_prompt, str "User task: t", str "User task: t"]
    ∧ alternatingFrom true
        ([system_prompt, str "User task: t", str "User task: t"].drop 1)
        = false := by
  exact ⟨by decide, by decide⟩

/-- C4 (amended): the conversation log is append-only and its first entry,
the fixed system instruction, is never removed or edited; the strict
task/generation alternation of the entries after the first is preserved by
every successful generation call, but a generation-service failure leaves an
unmatched task entry (see the counterexample), so alternation holds only
across calls that succeed. -/
theorem C4_conversation_amended :
    (∀ conv task svc, conv <+: (_get_ai_commands conv task svc).conversation)
    ∧ (∀ conv task svc, conv ≠ [] →
        (_get_ai_commands conv task svc).conversation.head? = conv.head?)
    ∧ GoodConv [system_prompt]
    ∧ (∀ conv task resp, GoodConv conv →
        GoodConv (_get_ai_commands conv task (Except.ok resp)).conversation) := by
  refine ⟨?_, ?_, ⟨rfl, rfl, rfl⟩, fun conv task resp h => goodConv_ok conv task resp h⟩
  · intro conv task svc
    cases svc with
    | error e => exact List.prefix_append conv _
    | ok resp =>
      exact (List.prefix_append conv [str "User task: " ++ task]).trans
        (List.prefix_append _ _)
  · intro conv task svc hne
    cases conv with
    | nil => exact absurd rfl hne
    | cons c cs => cases svc <;> simp [_get_ai_commands]

/-- Witness for C4 (amended): a concrete successful call on the freshly
seeded log keeps the system prompt first and preserves the invariant. -/
theorem C4_conversation_amended_witness :
    (_get_ai_commands [system_prompt] (str "t")
        (Except.ok (str "ls"))).conversation.head?
      = ([system_prompt] : List Str).head?
    ∧ GoodConv (_get_ai_commands [system_prompt] (str "t")
        (Except.ok (str "ls"))).conversation :=
  ⟨C4_conversation_amended.2.1 [system_prompt] (str "t")
      (Except.ok (str "ls")) (List.cons_ne_nil _ _),
   C4_conversation_amended.2.2.2 [system_prompt] (str "t") (str "ls")
      C4_conversation_amended.2.2.1⟩

/-- The head of `dropWhile p` does not satisfy `p`. -/
theorem dropWhile_head_false {α : Type} (p : α → Bool) (l : List α) (c : α)
    (rest : List α) (h : l.dropWhile p = c :: rest) : p c = false := by
  induction l with
  | nil => simp at h
  | cons a t ih =>
    rw [List.dropWhile_cons] at h
    split at h
    · exact ih h
    · rename_i hpa
      cases h
      simpa using hpa

/-- The comment-marker branch of the line parser is unreachable: once the
leading non-alphanumeric run is stripped, a nonempty line starts with a
letter or digit, never with `#` or `/`. -/
theorem parseLine_eq_stripOnly (line : Str) :
    parseLine line = parseLineStripOnly line := by
  simp only [parseLine, parseLineStripOnly]
  cases hl : line.dropWhile (fun c => !(isAsciiAlnum c)) with
  | nil => simp
  | cons c rest =>
    have hcs : isAsciiAlnum c = true := by
      have := dropWhile_head_false (fun c => !(isAsciiAlnum c)) line c rest hl
      simpa using this
    have hsharp : (c == '#') = false := by
      cases hcc : c == '#'
      · rfl
      · rw [beq_iff_eq] at hcc; subst hcc; exact absurd hcs (by decide)
    have hslash : (c == '/') = false := by
      cases hcc : c == '/'
      · rfl
      · rw [beq_iff_eq] at hcc; subst hcc; exact absurd hcs (by decide)
    have h1 : str "#" = ['#'] := rfl
    have h2 : str "//" = ['/', '/'] := rfl
    have h3 : str "/*" = ['/', '*'] := rfl
    simp [h1, h2, h3, strStartsWith, hsharp, hslash]

/-- C3 counterexample: on the specification's own example input the parser
does not return `["echo foo", "echo bar"]` — the comment line survives
(mangled to `a comment`) and the leading `1. ` marker, which starts with a
digit, is not stripped. -/
theorem C3_parse_counterexample :
    parseResponse (str "1. echo foo\n# a comment\necho bar")
      ≠ [str "echo foo", str "echo bar"] := by decide

/-- C3 (amended): the parser splits on line boundaries, strips each line's
leading run of non-alphanumeric characters, drops the line only when the
result is empty, and emits the trimmed result — the comment-marker check is
dead code (a digit such as a leading list number is alphanumeric and hence
kept, and a stripped nonempty line can never start with a comment marker);
the example input parses to `["1. echo foo", "a comment", "echo bar"]`. -/
theorem C3_parse_amended :
    (∀ resp, parseResponse resp = (splitNL resp).filterMap parseLineStripOnly)
    ∧ parseResponse (str "1. echo foo\n# a comment\necho bar")
        = [str "1. echo foo", str "a comment", str "echo bar"] := by
  refine ⟨fun resp => ?_, by decide⟩
  exact List.filterMap_congr (fun line _ => parseLine_eq_stripOnly line)

/-- Dropping a satisfied run twice is dropping it once. -/
theorem dropWhile_dropWhile {α : Type} (p : α → Bool) (l : List α) :
    (l.dropWhile p).dropWhile p = l.dropWhile p := by
  induction l with
  | nil => rfl
  | cons c t ih =>
    rw [List.dropWhile_cons]
    split
    · exact ih
    · rename_i hpc
      rw [List.dropWhile_cons, if_neg hpc]

/-- A prefix of a list that drops nothing drops nothing either. -/
theorem dropWhile_prefix_eq {α : Type} (p : α → Bool) (l l' : List α)
    (h : l.dropWhile p = l) (hp : l' <+: l) : l'.dropWhile p = l' := by
  cases l' with
  | nil => rfl
  | cons a t =>
    obtain ⟨s, hs⟩ := hp
    have hpa : p a = false := by
      cases hcon : p a
      · rfl
      · exfalso
        rw [← hs, List.cons_append, List.dropWhile_cons, if_pos hcon] at h
        have hlen := congrArg List.length h
        have hle := (List.dropWhile_sublist (l := t ++ s) p).length_le
        simp only [List.length_cons] at hlen
        omega
    rw [List.dropWhile_cons, if_neg (by simp [hpa])]

/-- A stripped string has no leading whitespace. -/
theorem pyStrip_front (s : Str) :
    (pyStrip s).dropWhile isPySpace = pyStrip s := by
  have hsuffix : (s.dropWhile isPySpace).reverse.dropWhile isPySpace
      <:+ (s.dropWhile isPySpace).reverse := List.dropWhile_suffix _
  have hpre := List.reverse_prefix.mpr hsuffix
  rw [List.reverse_reverse] at hpre
  exact dropWhile_prefix_eq isPySpace _ _ (dropWhile_dropWhile isPySpace s) hpre

/-- A stripped string has no trailing whitespace. -/
theorem pyStrip_back (s : Str) :
    (pyStrip s).reverse.dropWhile isPySpace = (pyStrip s).reverse := by
  show ((((s.dropWhile isPySpace).reverse.dropWhile
        isPySpace).reverse).reverse).dropWhile isPySpace
      = (((s.dropWhile isPySpace).reverse.dropWhile
        isPySpace).reverse).reverse
  rw [List.reverse_reverse, dropWhile_dropWhile]

/-- Stripping a string with no leading and no trailing whitespace is the
identity. -/
theorem pyStrip_eq_self (s : Str) (h1 : s.dropWhile isPySpace = s)
    (h2 : s.reverse.dropWhile isPySpace = s.reverse) : pyStrip s = s := by
  show ((s.dropWhile isPySpace).reverse.dropWhile isPySpace).reverse = s
  rw [h1, h2, List.reverse_reverse]

/-- Python strip is idempotent. -/
theorem pyStrip_pyStrip (s : Str) : pyStrip (pyStrip s) = pyStrip s :=
  pyStrip_eq_self _ (pyStrip_front s) (pyStrip_back s)

/-- Stripping only removes characters. -/
theorem mem_of_mem_pyStrip {c : Char} {s : Str} (h : c ∈ pyStrip s) :
    c ∈ s := by
  have h1 : c ∈ (s.dropWhile isPySpace).reverse.dropWhile isPySpace := by
    rw [← List.mem_reverse]
    exact h
  have h2 := List.Sublist.mem h1 (List.dropWhile_sublist isPySpace)
  rw [List.mem_reverse] at h2
  exact List.Sublist.mem h2 (List.dropWhile_sublist isPySpace)

/-- The comment substitution leaves a hash-free string unchanged. -/
theorem subHashComment_no_hash {s : Str} (h : ('#' : Char) ∉ s) :
    subHashComment s = s := by
  induction s with
  | nil => rfl
  | cons c rest ih =>
    have hcne : ¬ c = '#' := by
      intro hh
      exact h (by rw [← hh]; exact List.mem_cons_self c rest)
    have hc : (c == '#') = false := beq_eq_false_iff_ne.mpr hcne
    have ih' := ih (fun hm => h (List.mem_cons_of_mem c hm))
    simp [subHashComment, hc, ih']

/-- On a newline-free string the comment substitution removes exactly the
text from the first `#` (escaped or not) to the end. -/
theorem subHashComment_no_newline {s : Str} (h : ('\n' : Char) ∉ s) :
    subHashComment s = s.takeWhile (fun c => !(c == '#')) := by
  induction s with
  | nil => rfl
  | cons c rest ih =>
    have hrest : ('\n' : Char) ∉ rest := fun hm => h (List.mem_cons_of_mem c hm)
    have hcontains : rest.contains '\n' = false := by simpa using hrest
    have hnm : ('\n' : Char) ∉ rest.dropLast :=
      fun hm => hrest (List.Sublist.mem hm (List.dropLast_sublist rest))
    have hdl : rest.dropLast.contains '\n' = false := by simpa using hnm
    by_cases hc : c = '#'
    · subst hc
      simp [subHashComment, hashReachesEnd, hdl, hcontains, hnm, hrest,
        List.takeWhile_cons]
    · have hc' : (c == '#') = false := beq_eq_false_iff_ne.mpr hc
      simp [subHashComment, hc', ih hrest, List.takeWhile_cons]

/-- On newline-free input, cleaning is stripping everything from the first
hash sign on, plus surrounding whitespace. -/
theorem cleanCmd_eq_of_no_newline {cmd : Str} (h : ('\n' : Char) ∉ cmd) :
    cleanCmd cmd = pyStrip (cmd.takeWhile (fun c => !(c == '#'))) := by
  show pyStrip (subHashComment cmd) = _
  rw [subHashComment_no_newline h]

/-- A cleaned newline-free command contains no hash sign. -/
theorem no_hash_cleanCmd {cmd : Str} (h : ('\n' : Char) ∉ cmd) :
    ('#' : Char) ∉ cleanCmd cmd := by
  rw [cleanCmd_eq_of_no_newline h]
  intro hmem
  have h1 := mem_of_mem_pyStrip hmem
  have h2 := List.mem_takeWhile_imp h1
  simp at h2

/-- Cleaning a newline-free command is idempotent. -/
theorem cleanCmd_cleanCmd {cmd : Str} (h : ('\n' : Char) ∉ cmd) :
    cleanCmd (cleanCmd cmd) = cleanCmd cmd := by
  have hnh := no_hash_cleanCmd h
  show pyStrip (subHashComment (cleanCmd cmd)) = cleanCmd cmd
  rw [subHashComment_no_hash hnh, cleanCmd_eq_of_no_newline h, pyStrip_pyStrip]

/-- C8 counterexample: on `echo \#hello` the sanitizer's comment stripping
removes the escaped `#` and everything after it, so escaped hash signs are
not preserved as the claim states. -/
theorem C8_comment_strip_counterexample :
    cleanCmd (str "echo \\#hello") = str "echo \\"
    ∧ cleanCmd (str "echo \\#hello") ≠ str "echo \\#hello" :=
  ⟨by decide, by decide⟩

/-- C8 (amended): for every newline-free candidate, the comment-stripping
step removes exactly the text from the first `#` — whether escaped or not —
to the end of the line, plus surrounding whitespace. -/
theorem C8_comment_strip_amended (cmd : Str) (h : ('\n' : Char) ∉ cmd) :
    cleanCmd cmd = pyStrip (cmd.takeWhile (fun c => !(c == '#'))) :=
  cleanCmd_eq_of_no_newline h

/-- Witness for C8 (amended): the escaped-hash candidate is newline-free and
is cleaned to the stripped prefix before its first hash sign. -/
theorem C8_comment_strip_amended_witness :
    cleanCmd (str "echo \\#hello")
      = pyStrip ((str "echo \\#hello").takeWhile (fun c => !(c == '#'))) :=
  C8_comment_strip_amended (str "echo \\#hello") (by decide)

/-- C9 counterexample: sanitize is not idempotent on every command list — on
`["a#b\n "]` the first pass cannot strip the comment (the `$` anchor does not
match before the interior newline) but exposes a strippable `#` for the
second pass. -/
theorem C9_idempotent_counterexample :
    _sanitize_commands (_sanitize_commands [str "a#b\n "])
      ≠ _sanitize_commands [str "a#b\n "] := by decide

/-- C9 (amended): sanitize is idempotent on every list of newline-free
command strings (in particular on everything the line parser can feed it):
sanitizing an already-sanitized list yields the same list unchanged. -/
theorem C9_idempotent_amended (cmds : List Str)
    (h : ∀ c ∈ cmds, ('\n' : Char) ∉ c) :
    _sanitize_commands (_sanitize_commands cmds) = _sanitize_commands cmds := by
  have hfix : ∀ c ∈ _sanitize_commands cmds, cleanCmd c = c := by
    intro c hc
    rw [sanitize_commands_eq] at hc
    obtain ⟨hmap, _⟩ := List.mem_filter.mp hc
    obtain ⟨orig, horig, hco⟩ := List.mem_map.mp hmap
    rw [← hco]
    exact cleanCmd_cleanCmd (h orig horig)
  have hmapid : (_sanitize_commands cmds).map cleanCmd = _sanitize_commands cmds := by
    conv_rhs => rw [← List.map_id (_sanitize_commands cmds)]
    exact List.map_congr_left (fun a ha => hfix a ha)
  rw [sanitize_commands_eq (_sanitize_commands cmds), hmapid]
  refine List.filter_eq_self.mpr ?_
  intro a ha
  rw [sanitize_commands_eq] at ha
  exact (List.mem_filter.mp ha).2

/-- Witness for C9 (amended): a concrete newline-free list is sanitized to a
fixed point. -/
theorem C9_idempotent_amended_witness :
    _sanitize_commands
        (_sanitize_commands [str "ls -la  # list files", str "echo hello"])
      = _sanitize_commands [str "ls -la  # list files", str "echo hello"] :=
  C9_idempotent_amended [str "ls -la  # list files", str "echo hello"]
    (by decide)

end AIAgent
